import Mathlib

/-!
Verification of the KAILASA ERP general-ledger engine against its
natural-language specification.

Sources embedded here:
* `backend/migrations/001_init.sql` — table CHECK constraints and seed data
  (the authority for schema-level claims);
* `frontend/src/pages/JournalEntries.tsx` — the `JECreate` form's balance
  check and submit-payload construction;
* the Ledger Engine operations (`createDraft`, `post`, `reverse`,
  `close`/`reopen`, `trialBalance`): the FastAPI route code
  (`backend/app/routes/gl.py`, `org.py`, `reports.py`) is not part of the
  source tree given here, so those operations are modelled from the spec,
  as marked on each definition.

Monetary amounts are integer minor units (cents); ids and account numbers
are abstracted to `Nat`; the unique entry number doubles as the entry key.
-/

/-- Account types, from the `accounts.account_type` CHECK constraint in
`001_init.sql`. -/
inductive AccountType
  | asset
  | liability
  | equity
  | revenue
  | expense
deriving DecidableEq, Repr

/-- Normal-balance sides, from the `accounts.normal_balance` CHECK constraint
in `001_init.sql`. -/
inductive NormalBalance
  | debit
  | credit
deriving DecidableEq, Repr

/-- A row of the seeded chart of accounts: account number (numeric string in
the SQL, read as a `Nat`), display name, type and normal-balance side. -/
structure SeedAccount where
  number : Nat
  name : String
  accountType : AccountType
  normalBalance : NormalBalance
deriving DecidableEq, Repr

/-- The normal-balance side the spec says is implied by the account type
(asset/expense have normal balance debit; liability/equity/revenue credit).
This is the spec's mapping, stated for comparison with the seeded data. -/
def impliedNormalBalance : AccountType → NormalBalance
  | .asset => .debit
  | .expense => .debit
  | .liability => .credit
  | .equity => .credit
  | .revenue => .credit

/-- The chart of accounts seeded by section 9e of `001_init.sql`
(account_number, name, account_type, normal_balance of every inserted row). -/
def seedAccounts : List SeedAccount :=
  [ ⟨1000, "Assets", .asset, .debit⟩,
    ⟨1100, "Current Assets", .asset, .debit⟩,
    ⟨1110, "Cash - Checking", .asset, .debit⟩,
    ⟨1120, "Cash - Savings", .asset, .debit⟩,
    ⟨1130, "Cash - Petty Cash", .asset, .debit⟩,
    ⟨1140, "Cash - PayPal/Online", .asset, .debit⟩,
    ⟨1200, "Accounts Receivable", .asset, .debit⟩,
    ⟨1210, "Pledges Receivable", .asset, .debit⟩,
    ⟨1300, "Prepaid Expenses", .asset, .debit⟩,
    ⟨1400, "Inventory - Books & Materials", .asset, .debit⟩,
    ⟨1500, "Fixed Assets", .asset, .debit⟩,
    ⟨1510, "Buildings & Improvements", .asset, .debit⟩,
    ⟨1520, "Furniture & Equipment", .asset, .debit⟩,
    ⟨1530, "Vehicles", .asset, .debit⟩,
    ⟨1590, "Accumulated Depreciation", .asset, .credit⟩,
    ⟨2000, "Liabilities", .liability, .credit⟩,
    ⟨2100, "Current Liabilities", .liability, .credit⟩,
    ⟨2110, "Accounts Payable", .liability, .credit⟩,
    ⟨2120, "Accrued Expenses", .liability, .credit⟩,
    ⟨2130, "Payroll Liabilities", .liability, .credit⟩,
    ⟨2140, "Deferred Revenue", .liability, .credit⟩,
    ⟨2200, "Long-Term Liabilities", .liability, .credit⟩,
    ⟨2210, "Mortgage Payable", .liability, .credit⟩,
    ⟨2220, "Notes Payable", .liability, .credit⟩,
    ⟨3000, "Net Assets", .equity, .credit⟩,
    ⟨3100, "Net Assets - Unrestricted", .equity, .credit⟩,
    ⟨3200, "Net Assets - Temporarily Restricted", .equity, .credit⟩,
    ⟨3300, "Net Assets - Permanently Restricted", .equity, .credit⟩,
    ⟨3900, "Retained Surplus / Deficit", .equity, .credit⟩,
    ⟨4000, "Revenue", .revenue, .credit⟩,
    ⟨4100, "Donation Revenue - Unrestricted", .revenue, .credit⟩,
    ⟨4110, "Donation Revenue - Temporarily Restricted", .revenue, .credit⟩,
    ⟨4120, "Donation Revenue - Permanently Restricted", .revenue, .credit⟩,
    ⟨4200, "Program Revenue", .revenue, .credit⟩,
    ⟨4210, "Course Fees", .revenue, .credit⟩,
    ⟨4220, "Event Revenue", .revenue, .credit⟩,
    ⟨4300, "Sales Revenue", .revenue, .credit⟩,
    ⟨4310, "Book Sales", .revenue, .credit⟩,
    ⟨4320, "Merchandise Sales", .revenue, .credit⟩,
    ⟨4400, "Grant Revenue", .revenue, .credit⟩,
    ⟨4500, "Interest & Investment Income", .revenue, .credit⟩,
    ⟨4900, "Other Revenue", .revenue, .credit⟩,
    ⟨5000, "Expenses", .expense, .debit⟩,
    ⟨5100, "Program Expenses", .expense, .debit⟩,
    ⟨5110, "Program Supplies", .expense, .debit⟩,
    ⟨5120, "Program Travel", .expense, .debit⟩,
    ⟨5200, "Cost of Goods Sold", .expense, .debit⟩,
    ⟨5210, "Cost of Books Sold", .expense, .debit⟩,
    ⟨5220, "Cost of Merchandise Sold", .expense, .debit⟩,
    ⟨6000, "Personnel Expenses", .expense, .debit⟩,
    ⟨6100, "Salaries & Wages", .expense, .debit⟩,
    ⟨6200, "Employee Benefits", .expense, .debit⟩,
    ⟨6300, "Payroll Taxes", .expense, .debit⟩,
    ⟨7000, "Occupancy & Facilities", .expense, .debit⟩,
    ⟨7100, "Rent", .expense, .debit⟩,
    ⟨7200, "Utilities", .expense, .debit⟩,
    ⟨7300, "Maintenance & Repairs", .expense, .debit⟩,
    ⟨7400, "Insurance", .expense, .debit⟩,
    ⟨8000, "Administrative Expenses", .expense, .debit⟩,
    ⟨8100, "Office Supplies", .expense, .debit⟩,
    ⟨8200, "Professional Fees", .expense, .debit⟩,
    ⟨8300, "Technology & Software", .expense, .debit⟩,
    ⟨8400, "Bank & Payment Fees", .expense, .debit⟩,
    ⟨8500, "Depreciation Expense", .expense, .debit⟩,
    ⟨8600, "Fundraising Expenses", .expense, .debit⟩,
    ⟨9000, "Other Expenses", .expense, .debit⟩,
    ⟨9900, "Intercompany Transfers", .expense, .debit⟩ ]

/-- The `journal_entries.source` CHECK constraint of `001_init.sql`
(`source IN ('manual', 'library', 'temple', 'import', 'system')`). -/
def journalEntrySourceOk (v : String) : Bool :=
  v == "manual" || v == "library" || v == "temple" || v == "import" || v == "system"

/-- The `journal_entries.status` CHECK constraint of `001_init.sql`
(`status IN ('draft', 'posted', 'reversed')`). -/
def journalEntryStatusOk (v : String) : Bool :=
  v == "draft" || v == "posted" || v == "reversed"

/-- The source-tag set exactly as the claim states it. -/
def claimSourceSet : List String :=
  ["manual", "import", "system", "external-subsystem"]

/-- The source-tag set actually accepted by the schema. -/
def actualSourceSet : List String :=
  ["manual", "library", "temple", "import", "system"]

/-- The status set as both the claim and the schema state it. -/
def claimStatusSet : List String :=
  ["draft", "posted", "reversed"]

/-- A line of the `JECreate` form (`JournalEntries.tsx`): `account_id` is the
selected account's id, the empty string while unselected; the amount fields
hold the value of `parseFloat(input) || 0`, modelled as an exact rational. -/
structure FormLine where
  account_id : String
  debit_amount : Rat
  credit_amount : Rat
deriving DecidableEq, Repr

/-- `totalDebit` of `JECreate` (JournalEntries.tsx line 369): sums the debit
amounts of all form lines, including lines with no account selected. -/
def formTotalDebit (ls : List FormLine) : Rat :=
  (ls.map FormLine.debit_amount).sum

/-- `totalCredit` of `JECreate` (JournalEntries.tsx line 370). -/
def formTotalCredit (ls : List FormLine) : Rat :=
  (ls.map FormLine.credit_amount).sum

/-- `balanced` of `JECreate` (JournalEntries.tsx line 371):
`Math.abs(totalDebit - totalCredit) < 0.01 && totalDebit > 0`. -/
def formBalanced (ls : List FormLine) : Bool :=
  decide (|formTotalDebit ls - formTotalCredit ls| < 1 / 100) &&
    decide (0 < formTotalDebit ls)

/-- The lines `handleSubmit` actually submits (JournalEntries.tsx line 389):
`lines.filter((l) => l.account_id)` — lines with no selected account are
dropped from the payload. -/
def payloadLines (ls : List FormLine) : List FormLine :=
  ls.filter (fun l => l.account_id != "")

/-- Modelled from the spec: journal-entry lifecycle states
(`draft`, `posted`, `reversed`); the enforcing route code
`backend/app/routes/gl.py` is absent from the source tree. -/
inductive JEStatus
  | draft
  | posted
  | reversed
deriving DecidableEq, Repr

/-- Modelled from the spec: fiscal-period states (`open`, `closed`,
`adjusting`); the enforcing route code `backend/app/routes/org.py` is absent
from the source tree. `open` is a Lean keyword, hence `open_`. -/
inductive PStatus
  | open_
  | closed
  | adjusting
deriving DecidableEq, Repr

/-- Modelled from the spec: the error taxonomy of the Ledger Engine and
Fiscal Calendar contracts (section 4 and 7 of the spec). -/
inductive LedgerErr
  | NotFound
  | NotDraft
  | NotPosted
  | AlreadyReversed
  | PeriodClosed
  | Unbalanced
  | ValidationError
  | NoPeriodForDate
  | AlreadyClosed
  | NotClosed
deriving DecidableEq, Repr

/-- Modelled from the spec: a journal line — account reference and
non-negative debit/credit amounts in integer minor units (cents).
Department/fund tags, currency and exchange rate are reporting detail the
claims do not touch and are omitted. -/
structure JLine where
  accountId : Nat
  debit : Nat
  credit : Nat
deriving DecidableEq, Repr

/-- Modelled from the spec: a journal-entry header with its lines. The
sequential entry number doubles as the entry's key (the SQL `entry_number`
SERIAL column is unique); memo, timestamps and acting users are audit detail
omitted from the model. -/
structure JEntry where
  entryNumber : Nat
  subsidiaryId : Nat
  periodId : Nat
  status : JEStatus
  lines : List JLine
  reversedByJeId : Option Nat
deriving DecidableEq, Repr

/-- Modelled from the spec: a fiscal period — id, sortable period code
(`YYYY-MM` read as the number `YYYYMM`) and state. -/
structure FPeriod where
  id : Nat
  code : Nat
  status : PStatus
deriving DecidableEq, Repr

/-- Modelled from the spec: a chart-of-accounts row as the Ledger Engine
needs it — account number (also used as the line's account reference) and
active flag. -/
structure LAccount where
  number : Nat
  active : Bool
deriving DecidableEq, Repr

/-- Modelled from the spec: the persistent ledger store — fiscal periods,
chart of accounts, journal entries in creation order, and the store-owned
monotonic entry-number sequence. -/
structure LedgerState where
  periods : List FPeriod
  accounts : List LAccount
  entries : List JEntry
  nextEntryNumber : Nat
deriving DecidableEq, Repr

/-- Sum of the debit amounts of a list of lines (minor units). -/
def sumDebit (ls : List JLine) : Nat :=
  (ls.map JLine.debit).sum

/-- Sum of the credit amounts of a list of lines (minor units). -/
def sumCredit (ls : List JLine) : Nat :=
  (ls.map JLine.credit).sum

/-- Modelled from the spec: a line is well-formed when exactly one of its
debit and credit amounts is non-zero ("never both, never neither"). -/
def lineOk (l : JLine) : Bool :=
  Bool.xor (l.debit != 0) (l.credit != 0)

/-- Modelled from the spec: `createDraft` validation — at least 2 lines, each
line with exactly one positive side, debits equal to credits on the cent, and
every referenced account resolving to an active chart account. -/
def validLines (s : LedgerState) (ls : List JLine) : Bool :=
  decide (2 ≤ ls.length) && ls.all lineOk &&
    (sumDebit ls == sumCredit ls) &&
    ls.all (fun l => s.accounts.any (fun a => a.number == l.accountId && a.active))

/-- Replace the first element satisfying `p` by its image under `f`, leaving
the rest unchanged (the model of an UPDATE keyed on a unique column). -/
def updateFirst {α : Type} (p : α → Bool) (f : α → α) : List α → List α
  | [] => []
  | x :: xs => if p x then f x :: xs else x :: updateFirst p f xs

/-- Modelled from the spec: `createDraft` — resolves the period, validates
the lines, assigns the next entry number from the store-owned sequence and
persists the entry as `draft` at the end of the journal. -/
def createDraft (sub pid : Nat) (ls : List JLine) (s : LedgerState) :
    Except LedgerErr LedgerState :=
  if (s.periods.find? (fun p => p.id == pid)).isNone then
    .error .NoPeriodForDate
  else if !validLines s ls then
    .error .ValidationError
  else
    .ok { s with
          entries := s.entries ++ [⟨s.nextEntryNumber, sub, pid, .draft, ls, none⟩],
          nextEntryNumber := s.nextEntryNumber + 1 }

/-- Modelled from the spec: in-place edit of a draft entry's lines, re-running
the `createDraft` validation (drafts are mutable, but the entry-level balance
invariant is checked defensively even for drafts). -/
def editDraftLines (n : Nat) (ls : List JLine) (s : LedgerState) :
    Except LedgerErr LedgerState :=
  match s.entries.find? (fun e => e.entryNumber == n) with
  | none => .error .NotFound
  | some e =>
    if e.status != .draft then .error .NotDraft
    else if !validLines s ls then .error .ValidationError
    else .ok { s with
               entries := updateFirst (fun e => e.entryNumber == n)
                 (fun e => { e with lines := ls }) s.entries }

/-- Whether the period referenced by `pid` is currently `open` in the store. -/
def periodOpen (s : LedgerState) (pid : Nat) : Bool :=
  (s.periods.find? (fun p => p.id == pid)).any (fun p => p.status == .open_)

/-- Modelled from the spec: `post` — fails `NotFound` when the entry is absent,
`NotDraft` unless the entry is currently a draft, `PeriodClosed` when the
entry's period is not `open` at the moment of posting (re-checked live), and
`Unbalanced` when debits and credits disagree (re-validated defensively);
on success the status becomes `posted`. Balances are a derived view of the
stored entries, so the transition applies the lines exactly once. -/
def post (n : Nat) (s : LedgerState) : Except LedgerErr LedgerState :=
  match s.entries.find? (fun e => e.entryNumber == n) with
  | none => .error .NotFound
  | some e =>
    if e.status != .draft then .error .NotDraft
    else if !periodOpen s e.periodId then .error .PeriodClosed
    else if sumDebit e.lines != sumCredit e.lines then .error .Unbalanced
    else .ok { s with
               entries := updateFirst (fun x => x.entryNumber == n)
                 (fun x => { x with status := .posted }) s.entries }

/-- Swap the debit and credit amounts of a line (the 1:1 reversal mirror). -/
def swapLine (l : JLine) : JLine :=
  ⟨l.accountId, l.credit, l.debit⟩

/-- Modelled from the spec: `reverse` — only a currently `posted` entry with
no reversal yet may be reversed; a fresh, auto-posted mirror entry (lines
with debit/credit swapped 1:1, same subsidiary) is appended under the next
entry number, in the period `rpid` resolved fresh from the reversal date,
and the original's status becomes `reversed` with the back-reference set. -/
def reverseEntry (n rpid : Nat) (s : LedgerState) :
    Except LedgerErr LedgerState :=
  match s.entries.find? (fun e => e.entryNumber == n) with
  | none => .error .NotFound
  | some e =>
    if e.status == .draft then .error .NotPosted
    else if e.status == .reversed || e.reversedByJeId.isSome then
      .error .AlreadyReversed
    else
      .ok { s with
            entries :=
              updateFirst (fun x => x.entryNumber == n)
                (fun x => { x with status := .reversed,
                                   reversedByJeId := some s.nextEntryNumber })
                s.entries
              ++ [⟨s.nextEntryNumber, e.subsidiaryId, rpid, .posted,
                   e.lines.map swapLine, none⟩],
            nextEntryNumber := s.nextEntryNumber + 1 }

/-- Modelled from the spec: `close` on a fiscal period —
`open -> closed`, failing `NotFound` or `AlreadyClosed`. -/
def closePeriod (pid : Nat) (s : LedgerState) : Except LedgerErr LedgerState :=
  match s.periods.find? (fun p => p.id == pid) with
  | none => .error .NotFound
  | some p =>
    if p.status != .open_ then .error .AlreadyClosed
    else .ok { s with
               periods := updateFirst (fun x => x.id == pid)
                 (fun x => { x with status := .closed }) s.periods }

/-- Modelled from the spec: `reopen` on a fiscal period —
`closed -> open`, failing `NotFound` or `NotClosed`. -/
def reopenPeriod (pid : Nat) (s : LedgerState) : Except LedgerErr LedgerState :=
  match s.periods.find? (fun p => p.id == pid) with
  | none => .error .NotFound
  | some p =>
    if p.status != .closed then .error .NotClosed
    else .ok { s with
               periods := updateFirst (fun x => x.id == pid)
                 (fun x => { x with status := .open_ }) s.periods }

/-- Signed effect of one line on one account, in minor units:
debit minus credit when the line hits the account, zero otherwise. -/
def lineEffect (a : Nat) (l : JLine) : Int :=
  if l.accountId = a then (l.debit : Int) - (l.credit : Int) else 0

/-- Signed effect of a list of lines on one account. -/
def linesEffect (a : Nat) (ls : List JLine) : Int :=
  (ls.map (lineEffect a)).sum

/-- Signed effect of an entry on one account. -/
def entryEffect (a : Nat) (e : JEntry) : Int :=
  linesEffect a e.lines

/-- Contribution of an entry to running balances: applied once the entry has
been posted (a reversed original's lines remain counted; the posted mirror
entry nets them to zero), never while it is a draft. -/
def appliedEffect (a : Nat) (e : JEntry) : Int :=
  if e.status = .draft then 0 else entryEffect a e

/-- Modelled from the spec: the running balance of an account — the sum of
the applied effects of the stored entries (`getBalance` debit total minus
credit total, in minor units). -/
def balance (s : LedgerState) (a : Nat) : Int :=
  (s.entries.map (appliedEffect a)).sum

/-- Modelled from the spec: the state-transition relation of the engine —
one constructor per mutating operation, plus `skipNumber` modelling an entry
number consumed by a rolled-back transaction (gaps are permitted). -/
inductive Step : LedgerState → LedgerState → Prop
  | stepCreate (sub pid : Nat) (ls : List JLine) (s s' : LedgerState) :
      createDraft sub pid ls s = .ok s' → Step s s'
  | stepEdit (n : Nat) (ls : List JLine) (s s' : LedgerState) :
      editDraftLines n ls s = .ok s' → Step s s'
  | stepPost (n : Nat) (s s' : LedgerState) :
      post n s = .ok s' → Step s s'
  | stepReverse (n rpid : Nat) (s s' : LedgerState) :
      reverseEntry n rpid s = .ok s' → Step s s'
  | stepClose (pid : Nat) (s s' : LedgerState) :
      closePeriod pid s = .ok s' → Step s s'
  | stepReopen (pid : Nat) (s s' : LedgerState) :
      reopenPeriod pid s = .ok s' → Step s s'
  | stepSkipNumber (k : Nat) (s : LedgerState) :
      Step s { s with nextEntryNumber := s.nextEntryNumber + k + 1 }

/-- The empty ledger over a given fiscal calendar and chart of accounts:
no entries, sequence at 1. -/
def initState (ps : List FPeriod) (as_ : List LAccount) : LedgerState :=
  ⟨ps, as_, [], 1⟩

/-- A state the engine can reach: finitely many operations applied to an
empty ledger over some calendar and chart. -/
def Reachable (s : LedgerState) : Prop :=
  ∃ ps as_, Relation.ReflTransGen Step (initState ps as_) s

/-- A trial-balance report row: account number with its debit-column and
credit-column balance in minor units. -/
structure TBRow where
  accountNumber : Nat
  debitBalance : Int
  creditBalance : Int
deriving DecidableEq, Repr

/-- Modelled from the spec: whether an entry counts for a trial balance as of
period code `asOf` under an optional subsidiary filter — posted activity only
(drafts excluded; a reversed original stays counted, its posted mirror nets
it out), periods up to and including `asOf`, and matching subsidiary when a
filter is given. -/
def entryInScope (s : LedgerState) (asOf : Nat) (sub : Option Nat)
    (e : JEntry) : Bool :=
  (e.status != .draft) &&
    ((s.periods.find? (fun p => p.id == e.periodId)).any
      (fun p => decide (p.code ≤ asOf))) &&
    (match sub with
     | none => true
     | some x => e.subsidiaryId == x)

/-- The entries a trial-balance call aggregates. -/
def scopedEntries (s : LedgerState) (asOf : Nat) (sub : Option Nat) :
    List JEntry :=
  s.entries.filter (entryInScope s asOf sub)

/-- Unsigned activity of one line on one account (debit plus credit when the
line hits the account). -/
def lineActivity (a : Nat) (l : JLine) : Nat :=
  if l.accountId = a then l.debit + l.credit else 0

/-- Unsigned activity of one entry on one account. -/
def entryActivity (a : Nat) (e : JEntry) : Nat :=
  (e.lines.map (lineActivity a)).sum

/-- Activity-to-date of an account over a list of entries; a trial balance
row exists exactly when this is non-zero. -/
def acctActivity (es : List JEntry) (a : Nat) : Nat :=
  (es.map (entryActivity a)).sum

/-- Net signed balance of an account over a list of entries. -/
def acctNet (es : List JEntry) (a : Nat) : Int :=
  (es.map (entryEffect a)).sum

/-- Ordering of chart accounts by account number, for report sorting. -/
def byNumber : LAccount → LAccount → Prop :=
  fun a b => a.number ≤ b.number

instance : DecidableRel byNumber :=
  fun a b => Nat.decLe a.number b.number

instance : IsTotal LAccount byNumber :=
  ⟨fun a b => Nat.le_total a.number b.number⟩

instance : IsTrans LAccount byNumber :=
  ⟨fun _ _ _ h1 h2 => Nat.le_trans h1 h2⟩

/-- The trial-balance row of one account: skipped when the account has no
activity to date, otherwise its positive net balance in the debit column or
its negated negative net balance in the credit column. -/
def tbRow (es : List JEntry) (a : LAccount) : Option TBRow :=
  if acctActivity es a.number = 0 then none
  else some ⟨a.number, max (acctNet es a.number) 0, max (-acctNet es a.number) 0⟩

/-- Modelled from the spec: `trialBalance(periodCode, subsidiaryId?)` — one
row per chart account with non-zero activity-to-date, sorted by account
number ascending, aggregating posted lines of periods up to `asOf` under the
optional subsidiary filter. -/
def trialBalance (s : LedgerState) (asOf : Nat) (sub : Option Nat) :
    List TBRow :=
  (s.accounts.insertionSort byNumber).filterMap
    (tbRow (scopedEntries s asOf sub))

/-- The fiscal calendar of the concrete demonstration ledger: one period,
January 2026, open. -/
def demoPeriods : List FPeriod :=
  [⟨1, 202601, .open_⟩]

/-- The chart of the demonstration ledger: cash (1000) and donation
revenue (4100), both active. -/
def demoAccounts : List LAccount :=
  [⟨1000, true⟩, ⟨4100, true⟩]

/-- The empty demonstration ledger. -/
def demoInit : LedgerState :=
  initState demoPeriods demoAccounts

/-- Demonstration lines: debit Cash 5000.00, credit Donation Revenue
5000.00 (in cents). -/
def demoLines : List JLine :=
  [⟨1000, 500000, 0⟩, ⟨4100, 0, 500000⟩]

/-- The demonstration ledger after one `createDraft` of `demoLines`. -/
def demoDraft : LedgerState :=
  ⟨demoPeriods, demoAccounts, [⟨1, 1, 1, .draft, demoLines, none⟩], 2⟩

/-- A second balanced line set: debit Cash 25.00, credit Donation
Revenue 25.00. -/
def demoLines2 : List JLine :=
  [⟨1000, 2500, 0⟩, ⟨4100, 0, 2500⟩]

/-- The demonstration ledger after a second `createDraft` of `demoLines2`. -/
def demoDraft2 : LedgerState :=
  ⟨demoPeriods, demoAccounts,
   [⟨1, 1, 1, .draft, demoLines, none⟩, ⟨2, 1, 1, .draft, demoLines2, none⟩], 3⟩

/-- The demonstration ledger after posting entry 1. -/
def demoPosted : LedgerState :=
  ⟨demoPeriods, demoAccounts, [⟨1, 1, 1, .posted, demoLines, none⟩], 2⟩

/-- The demonstration ledger after closing period 1 on `demoDraft`. -/
def demoClosed : LedgerState :=
  ⟨[⟨1, 202601, .closed⟩], demoAccounts,
   [⟨1, 1, 1, .draft, demoLines, none⟩], 2⟩

/-- The demonstration ledger after reopening period 1 on `demoClosed`. -/
def demoReopened : LedgerState :=
  ⟨demoPeriods, demoAccounts, [⟨1, 1, 1, .draft, demoLines, none⟩], 2⟩

/-- Concrete `JECreate` form content: a first line with an amount but no
account selected, a second line with an account and the counter-amount. -/
def c10Lines : List FormLine :=
  [⟨"", 50, 0⟩, ⟨"acct-4100", 0, 50⟩]

/-- The demonstration ledger after reversing entry 1 on `demoPosted` into
period 1: the original marked `reversed`, the posted mirror appended. -/
def demoReversed : LedgerState :=
  ⟨demoPeriods, demoAccounts,
   [⟨1, 1, 1, .reversed, demoLines, some 2⟩,
    ⟨2, 1, 1, .posted, [⟨1000, 0, 500000⟩, ⟨4100, 500000, 0⟩], none⟩], 3⟩

/-- The inductive invariant of the persisted journal: every entry balanced in
every status, every line single-sided, entry numbers strictly increasing in
creation order and below the store's sequence value. -/
def EntriesInv (s : LedgerState) : Prop :=
  (∀ e ∈ s.entries, sumDebit e.lines = sumCredit e.lines) ∧
  (∀ e ∈ s.entries, ∀ l ∈ e.lines, lineOk l = true) ∧
  List.Pairwise (fun a b => a.entryNumber < b.entryNumber) s.entries ∧
  (∀ e ∈ s.entries, e.entryNumber < s.nextEntryNumber)

deriving instance DecidableEq for Except

theorem mem_updateFirst {α : Type} {p : α → Bool} {f : α → α} {l : List α} {x : α}
    (hx : x ∈ updateFirst p f l) : x ∈ l ∨ ∃ y, y ∈ l ∧ p y = true ∧ x = f y := by
  induction l with
  | nil => simp [updateFirst] at hx
  | cons a as ih =>
    by_cases hp : p a = true
    · simp only [updateFirst, hp, if_true] at hx
      rcases List.mem_cons.1 hx with h | h
      · exact Or.inr ⟨a, List.mem_cons_self a as, hp, h⟩
      · exact Or.inl (List.mem_cons_of_mem _ h)
    · simp only [updateFirst, hp, if_false] at hx
      rcases List.mem_cons.1 hx with h | h
      · exact Or.inl (h ▸ List.mem_cons_self a as)
      · rcases ih h with h' | ⟨y, hy, hpy, hxy⟩
        · exact Or.inl (List.mem_cons_of_mem _ h')
        · exact Or.inr ⟨y, List.mem_cons_of_mem _ hy, hpy, hxy⟩

theorem map_updateFirst {α β : Type} (g : α → β) (p : α → Bool) (f : α → α)
    (hgf : ∀ y, g (f y) = g y) (l : List α) :
    (updateFirst p f l).map g = l.map g := by
  induction l with
  | nil => rfl
  | cons a as ih =>
    by_cases hp : p a = true
    · simp [updateFirst, hp, hgf]
    · simp [updateFirst, hp, ih]

theorem find?_updateFirst {α : Type} {p : α → Bool} (f : α → α) {l : List α} {e : α}
    (h : l.find? p = some e) (hf : p (f e) = true) :
    (updateFirst p f l).find? p = some (f e) := by
  induction l with
  | nil => simp at h
  | cons a as ih =>
    by_cases hp : p a = true
    · rw [List.find?_cons_of_pos _ hp] at h
      injection h with h
      subst h
      simp only [updateFirst, hp, if_true]
      exact List.find?_cons_of_pos _ hf
    · rw [List.find?_cons_of_neg _ hp] at h
      simp only [updateFirst, hp, if_false, Bool.false_eq_true]
      rw [List.find?_cons_of_neg _ hp]
      exact ih h

theorem sum_map_updateFirst {α : Type} (g : α → Int) {p : α → Bool} (f : α → α)
    {l : List α} {e : α} (h : l.find? p = some e) :
    ((updateFirst p f l).map g).sum = (l.map g).sum - g e + g (f e) := by
  induction l with
  | nil => simp at h
  | cons a as ih =>
    by_cases hp : p a = true
    · rw [List.find?_cons_of_pos _ hp] at h
      injection h with h
      subst h
      simp only [updateFirst, hp, if_true, List.map_cons, List.sum_cons]
      omega
    · rw [List.find?_cons_of_neg _ hp] at h
      simp only [updateFirst, hp, if_false, Bool.false_eq_true, List.map_cons,
        List.sum_cons, ih h]
      omega

theorem sum_map_addFun {α : Type} (f g : α → Int) (l : List α) :
    (l.map (fun x => f x + g x)).sum = (l.map f).sum + (l.map g).sum := by
  induction l with
  | nil => simp
  | cons a as ih => simp only [List.map_cons, List.sum_cons, ih]; omega

theorem sum_map_subFun {α : Type} (f g : α → Int) (l : List α) :
    (l.map (fun x => f x - g x)).sum = (l.map f).sum - (l.map g).sum := by
  induction l with
  | nil => simp
  | cons a as ih => simp only [List.map_cons, List.sum_cons, ih]; omega

theorem sum_map_negFun {α : Type} (f : α → Int) (l : List α) :
    (l.map (fun x => -f x)).sum = -(l.map f).sum := by
  induction l with
  | nil => simp
  | cons a as ih => simp only [List.map_cons, List.sum_cons, ih]; omega

theorem sum_map_comm {α β : Type} (f : α → β → Int) (l1 : List α) (l2 : List β) :
    (l1.map (fun a => (l2.map (f a)).sum)).sum
      = (l2.map (fun b => (l1.map (fun a => f a b)).sum)).sum := by
  induction l1 with
  | nil =>
    symm
    apply List.sum_eq_zero
    intro x hx
    rcases List.mem_map.1 hx with ⟨b, _, rfl⟩
    simp
  | cons a as ih =>
    simp only [List.map_cons, List.sum_cons, ih]
    rw [← sum_map_addFun (fun b => f a b) (fun b => (as.map (fun x => f x b)).sum) l2]

theorem validLines_spec {s : LedgerState} {ls : List JLine}
    (h : validLines s ls = true) :
    2 ≤ ls.length ∧ (∀ l ∈ ls, lineOk l = true) ∧ sumDebit ls = sumCredit ls := by
  unfold validLines at h
  simp only [Bool.and_eq_true, decide_eq_true_eq, List.all_eq_true, beq_iff_eq] at h
  exact ⟨h.1.1.1, h.1.1.2, h.1.2⟩

theorem lineOk_iff (l : JLine) :
    lineOk l = true ↔ (0 < l.debit ∧ l.credit = 0) ∨ (l.debit = 0 ∧ 0 < l.credit) := by
  rcases l with ⟨a, d, c⟩
  unfold lineOk
  cases hd : (d != 0) <;> cases hc : (c != 0) <;>
    simp only [bne_iff_ne, ne_eq, bne_eq_false_iff_eq] at hd hc <;>
      simp_all <;> omega

theorem sumDebit_swap (ls : List JLine) : sumDebit (ls.map swapLine) = sumCredit ls := by
  induction ls with
  | nil => rfl
  | cons l rest ih => simp [sumDebit, sumCredit, swapLine] at ih ⊢; omega

theorem sumCredit_swap (ls : List JLine) : sumCredit (ls.map swapLine) = sumDebit ls := by
  induction ls with
  | nil => rfl
  | cons l rest ih => simp [sumDebit, sumCredit, swapLine] at ih ⊢; omega

theorem lineOk_swap (l : JLine) : lineOk (swapLine l) = lineOk l := by
  rcases l with ⟨a, d, c⟩
  simp [lineOk, swapLine, Bool.xor_comm]

theorem linesEffect_swap (a : Nat) (ls : List JLine) :
    linesEffect a (ls.map swapLine) = -linesEffect a ls := by
  unfold linesEffect
  rw [List.map_map, ← sum_map_negFun]
  congr 1
  apply List.map_congr_left
  intro l _
  simp only [Function.comp_apply, lineEffect, swapLine]
  split <;> omega

theorem createDraft_ok {sub pid : Nat} {ls : List JLine} {s s' : LedgerState}
    (h : createDraft sub pid ls s = .ok s') :
    validLines s ls = true ∧
    s' = { s with
           entries := s.entries ++ [⟨s.nextEntryNumber, sub, pid, .draft, ls, none⟩],
           nextEntryNumber := s.nextEntryNumber + 1 } := by
  by_cases h1 : (s.periods.find? (fun p => p.id == pid)).isNone = true
  · rw [createDraft, if_pos h1] at h
    exact Except.noConfusion h
  · by_cases h2 : validLines s ls = true
    · rw [createDraft, if_neg h1, if_neg (by simp [h2])] at h
      injection h with h
      exact ⟨h2, h.symm⟩
    · have hf : validLines s ls = false := Bool.eq_false_iff.mpr h2
      rw [createDraft, if_neg h1, if_pos (by simp [hf])] at h
      exact Except.noConfusion h

theorem post_ok {n : Nat} {s s' : LedgerState} (h : post n s = .ok s') :
    ∃ e, s.entries.find? (fun x => x.entryNumber == n) = some e ∧
      e.status = .draft ∧ periodOpen s e.periodId = true ∧
      sumDebit e.lines = sumCredit e.lines ∧
      s' = { s with
             entries := updateFirst (fun x => x.entryNumber == n)
               (fun x => { x with status := .posted }) s.entries } := by
  unfold post at h
  split at h
  · exact Except.noConfusion h
  · next e heq =>
    by_cases c1 : (e.status != JEStatus.draft) = true
    · rw [if_pos c1] at h
      exact Except.noConfusion h
    · rw [if_neg c1] at h
      by_cases c2 : (!periodOpen s e.periodId) = true
      · rw [if_pos c2] at h
        exact Except.noConfusion h
      · rw [if_neg c2] at h
        by_cases c3 : (sumDebit e.lines != sumCredit e.lines) = true
        · rw [if_pos c3] at h
          exact Except.noConfusion h
        · rw [if_neg c3] at h
          injection h with h
          exact ⟨e, heq, by simpa using c1, by simpa using c2, by simpa using c3, h.symm⟩

theorem editDraftLines_ok {n : Nat} {ls : List JLine} {s s' : LedgerState}
    (h : editDraftLines n ls s = .ok s') :
    ∃ e, s.entries.find? (fun x => x.entryNumber == n) = some e ∧
      e.status = .draft ∧ validLines s ls = true ∧
      s' = { s with
             entries := updateFirst (fun x => x.entryNumber == n)
               (fun x => { x with lines := ls }) s.entries } := by
  unfold editDraftLines at h
  split at h
  · exact Except.noConfusion h
  · next e heq =>
    by_cases c1 : (e.status != JEStatus.draft) = true
    · rw [if_pos c1] at h
      exact Except.noConfusion h
    · rw [if_neg c1] at h
      by_cases c2 : validLines s ls = true
      · rw [if_neg (by simp [c2])] at h
        injection h with h
        exact ⟨e, heq, by simpa using c1, c2, h.symm⟩
      · rw [if_pos (by simp [Bool.eq_false_iff.mpr c2])] at h
        exact Except.noConfusion h

theorem reverseEntry_ok {n rpid : Nat} {s s' : LedgerState}
    (h : reverseEntry n rpid s = .ok s') :
    ∃ e, s.entries.find? (fun x => x.entryNumber == n) = some e ∧
      e.status = .posted ∧ e.reversedByJeId = none ∧
      s' = { s with
             entries :=
               updateFirst (fun x => x.entryNumber == n)
                 (fun x => { x with status := .reversed,
                                    reversedByJeId := some s.nextEntryNumber })
                 s.entries
               ++ [⟨s.nextEntryNumber, e.subsidiaryId, rpid, .posted,
                    e.lines.map swapLine, none⟩],
             nextEntryNumber := s.nextEntryNumber + 1 } := by
  unfold reverseEntry at h
  split at h
  · exact Except.noConfusion h
  · next e heq =>
    by_cases c1 : (e.status == JEStatus.draft) = true
    · rw [if_pos c1] at h
      exact Except.noConfusion h
    · rw [if_neg c1] at h
      by_cases c2 : (e.status == JEStatus.reversed || e.reversedByJeId.isSome) = true
      · rw [if_pos c2] at h
        exact Except.noConfusion h
      · rw [if_neg c2] at h
        injection h with h
        simp only [Bool.or_eq_true, not_or, beq_iff_eq] at c1 c2
        have hst : e.status = .posted := by
          cases hs : e.status
          · exact absurd (by simp [hs]) c1
          · rfl
          · exact absurd hs c2.1
        have hrev : e.reversedByJeId = none := by
          cases hr : e.reversedByJeId
          · rfl
          · exact absurd (by simp [hr]) c2.2
        exact ⟨e, heq, hst, hrev, h.symm⟩

theorem closePeriod_ok {pid : Nat} {s s' : LedgerState}
    (h : closePeriod pid s = .ok s') :
    ∃ p, s.periods.find? (fun x => x.id == pid) = some p ∧
      p.status = .open_ ∧
      s' = { s with
             periods := updateFirst (fun x => x.id == pid)
               (fun x => { x with status := .closed }) s.periods } := by
  unfold closePeriod at h
  split at h
  · exact Except.noConfusion h
  · next p heq =>
    by_cases c1 : (p.status != PStatus.open_) = true
    · rw [if_pos c1] at h
      exact Except.noConfusion h
    · rw [if_neg c1] at h
      injection h with h
      exact ⟨p, heq, by simpa using c1, h.symm⟩

theorem reopenPeriod_ok {pid : Nat} {s s' : LedgerState}
    (h : reopenPeriod pid s = .ok s') :
    ∃ p, s.periods.find? (fun x => x.id == pid) = some p ∧
      p.status = .closed ∧
      s' = { s with
             periods := updateFirst (fun x => x.id == pid)
               (fun x => { x with status := .open_ }) s.periods } := by
  unfold reopenPeriod at h
  split at h
  · exact Except.noConfusion h
  · next p heq =>
    by_cases c1 : (p.status != PStatus.closed) = true
    · rw [if_pos c1] at h
      exact Except.noConfusion h
    · rw [if_neg c1] at h
      injection h with h
      exact ⟨p, heq, by simpa using c1, h.symm⟩

theorem pairwise_updateFirst_number {p : JEntry → Bool} {f : JEntry → JEntry}
    {l : List JEntry} (hf : ∀ y, (f y).entryNumber = y.entryNumber)
    (hp : List.Pairwise (fun a b : JEntry => a.entryNumber < b.entryNumber) l) :
    List.Pairwise (fun a b : JEntry => a.entryNumber < b.entryNumber)
      (updateFirst p f l) := by
  have h1 : (l.map JEntry.entryNumber).Pairwise (· < ·) :=
    List.pairwise_map.mpr hp
  have h2 : ((updateFirst p f l).map JEntry.entryNumber).Pairwise (· < ·) := by
    rw [map_updateFirst JEntry.entryNumber p f hf l]
    exact h1
  exact List.pairwise_map.mp h2

theorem number_lt_of_mem_updateFirst {p : JEntry → Bool} {f : JEntry → JEntry}
    {l : List JEntry} {N : Nat} {x : JEntry} (hx : x ∈ updateFirst p f l)
    (hf : ∀ y, (f y).entryNumber = y.entryNumber)
    (hb : ∀ e ∈ l, e.entryNumber < N) : x.entryNumber < N := by
  rcases mem_updateFirst hx with h | ⟨y, hy, -, rfl⟩
  · exact hb x h
  · rw [hf]
    exact hb y hy

theorem step_preserves_inv {s s' : LedgerState} (hs : Step s s')
    (h : EntriesInv s) : EntriesInv s' := by
  obtain ⟨hbal, hok, hpair, hbound⟩ := h
  cases hs with
  | stepCreate sub pid ls _ _ hc =>
    obtain ⟨hv, rfl⟩ := createDraft_ok hc
    obtain ⟨-, hlok, hbal'⟩ := validLines_spec hv
    refine ⟨?_, ?_, ?_, ?_⟩
    · intro e he
      rcases List.mem_append.1 he with h1 | h1
      · exact hbal e h1
      · rcases List.mem_singleton.1 h1 with rfl
        exact hbal'
    · intro e he
      rcases List.mem_append.1 he with h1 | h1
      · exact hok e h1
      · rcases List.mem_singleton.1 h1 with rfl
        exact hlok
    · refine List.pairwise_append.2 ⟨hpair, List.pairwise_singleton _ _, ?_⟩
      intro a ha b hb
      rcases List.mem_singleton.1 hb with rfl
      exact hbound a ha
    · intro e he
      rcases List.mem_append.1 he with h1 | h1
      · exact Nat.lt_succ_of_lt (hbound e h1)
      · rcases List.mem_singleton.1 h1 with rfl
        exact Nat.lt_succ_self _
  | stepEdit n ls _ _ he =>
    obtain ⟨e, hfind, hst, hv, rfl⟩ := editDraftLines_ok he
    obtain ⟨-, hlok, hbal'⟩ := validLines_spec hv
    refine ⟨?_, ?_, ?_, ?_⟩
    · intro x hx
      rcases mem_updateFirst hx with h1 | ⟨y, hy, -, rfl⟩
      · exact hbal x h1
      · exact hbal'
    · intro x hx
      rcases mem_updateFirst hx with h1 | ⟨y, hy, -, rfl⟩
      · exact hok x h1
      · exact hlok
    · exact pairwise_updateFirst_number (fun y => rfl) hpair
    · exact fun x hx => number_lt_of_mem_updateFirst hx (fun y => rfl) hbound
  | stepPost n _ _ hp =>
    obtain ⟨e, hfind, hst, hop, hbal', rfl⟩ := post_ok hp
    refine ⟨?_, ?_, ?_, ?_⟩
    · intro x hx
      rcases mem_updateFirst hx with h1 | ⟨y, hy, -, rfl⟩
      · exact hbal x h1
      · exact hbal y hy
    · intro x hx
      rcases mem_updateFirst hx with h1 | ⟨y, hy, -, rfl⟩
      · exact hok x h1
      · exact hok y hy
    · exact pairwise_updateFirst_number (fun y => rfl) hpair
    · exact fun x hx => number_lt_of_mem_updateFirst hx (fun y => rfl) hbound
  | stepReverse n rpid _ _ hr =>
    obtain ⟨e, hfind, hst, hrev, rfl⟩ := reverseEntry_ok hr
    have hmem : e ∈ s.entries := List.mem_of_find?_eq_some hfind
    refine ⟨?_, ?_, ?_, ?_⟩
    · intro x hx
      rcases List.mem_append.1 hx with h1 | h1
      · rcases mem_updateFirst h1 with h2 | ⟨y, hy, -, rfl⟩
        · exact hbal x h2
        · exact hbal y hy
      · rcases List.mem_singleton.1 h1 with rfl
        rw [show (⟨s.nextEntryNumber, e.subsidiaryId, rpid, .posted,
              e.lines.map swapLine, none⟩ : JEntry).lines = e.lines.map swapLine from rfl,
            sumDebit_swap, sumCredit_swap]
        exact (hbal e hmem).symm
    · intro x hx
      rcases List.mem_append.1 hx with h1 | h1
      · rcases mem_updateFirst h1 with h2 | ⟨y, hy, -, rfl⟩
        · exact hok x h2
        · exact hok y hy
      · rcases List.mem_singleton.1 h1 with rfl
        intro l hl
        rcases List.mem_map.1 hl with ⟨l0, hl0, rfl⟩
        rw [lineOk_swap]
        exact hok e hmem l0 hl0
    · refine List.pairwise_append.2
        ⟨pairwise_updateFirst_number (fun y => rfl) hpair,
         List.pairwise_singleton _ _, ?_⟩
      intro a ha b hb
      rcases List.mem_singleton.1 hb with rfl
      exact number_lt_of_mem_updateFirst ha (fun y => rfl) hbound
    · intro x hx
      rcases List.mem_append.1 hx with h1 | h1
      · exact Nat.lt_succ_of_lt
          (number_lt_of_mem_updateFirst h1 (fun y => rfl) hbound)
      · rcases List.mem_singleton.1 h1 with rfl
        exact Nat.lt_succ_self _
  | stepClose pid _ _ hc =>
    obtain ⟨p, hfind, hst, rfl⟩ := closePeriod_ok hc
    exact ⟨hbal, hok, hpair, hbound⟩
  | stepReopen pid _ _ hc =>
    obtain ⟨p, hfind, hst, rfl⟩ := reopenPeriod_ok hc
    exact ⟨hbal, hok, hpair, hbound⟩
  | stepSkipNumber k _ =>
    refine ⟨hbal, hok, hpair, ?_⟩
    intro e he
    have := hbound e he
    show e.entryNumber < s.nextEntryNumber + k + 1
    omega

theorem reachable_inv {s : LedgerState} (h : Reachable s) : EntriesInv s := by
  obtain ⟨ps, as_, hr⟩ := h
  induction hr with
  | refl =>
    refine ⟨?_, ?_, ?_, ?_⟩ <;> simp [initState]
  | tail hab hbc ih => exact step_preserves_inv hbc ih

theorem demoDraft_reachable : Reachable demoDraft :=
  ⟨demoPeriods, demoAccounts,
   Relation.ReflTransGen.single
     (Step.stepCreate 1 1 demoLines demoInit demoDraft (by decide))⟩

theorem demoDraft2_reachable : Reachable demoDraft2 :=
  ⟨demoPeriods, demoAccounts,
   (Relation.ReflTransGen.single
     (Step.stepCreate 1 1 demoLines demoInit demoDraft (by decide))).tail
     (Step.stepCreate 1 1 demoLines2 demoDraft demoDraft2 (by decide))⟩

/-- C2: in every reachable ledger state, every persisted journal entry — in
any of its statuses (draft, posted, reversed) — has equal debit and credit
totals to the cent, and `createDraft` rejects any unbalanced line set. -/
theorem persisted_entries_balanced {s : LedgerState} (h : Reachable s) :
    (∀ e ∈ s.entries, sumDebit e.lines = sumCredit e.lines) ∧
    (∀ sub pid ls t t', sumDebit ls ≠ sumCredit ls →
      createDraft sub pid ls t ≠ .ok t') := by
  refine ⟨(reachable_inv h).1, ?_⟩
  intro sub pid ls t t' hne hok
  obtain ⟨hv, -⟩ := createDraft_ok hok
  exact hne (validLines_spec hv).2.2

theorem persisted_entries_balanced_witness :
    sumDebit demoLines = sumCredit demoLines :=
  (persisted_entries_balanced demoDraft_reachable).1
    ⟨1, 1, 1, .draft, demoLines, none⟩ (by decide)

/-- C3: in every reachable ledger state, every line of every persisted entry
has exactly one strictly positive side — never both positive, never both
zero. -/
theorem journal_lines_single_sided {s : LedgerState} (h : Reachable s) :
    ∀ e ∈ s.entries, ∀ l ∈ e.lines,
      (0 < l.debit ∧ l.credit = 0) ∨ (l.debit = 0 ∧ 0 < l.credit) := by
  intro e he l hl
  exact (lineOk_iff l).1 ((reachable_inv h).2.1 e he l hl)

theorem journal_lines_single_sided_witness :
    (0 < (⟨1000, 500000, 0⟩ : JLine).debit ∧ (⟨1000, 500000, 0⟩ : JLine).credit = 0) ∨
    ((⟨1000, 500000, 0⟩ : JLine).debit = 0 ∧ 0 < (⟨1000, 500000, 0⟩ : JLine).credit) :=
  journal_lines_single_sided demoDraft_reachable
    ⟨1, 1, 1, .draft, demoLines, none⟩ (by decide) ⟨1000, 500000, 0⟩ (by decide)

/-- C7: in every reachable ledger state, the entry numbers assigned by the
engine are strictly increasing in creation order — a later-created entry has
a strictly greater number, numbers never repeat and never go backward (gaps
are possible: the sequence may also advance without an entry). -/
theorem entry_numbers_monotonic {s : LedgerState} (h : Reachable s) :
    List.Pairwise (fun a b => a.entryNumber < b.entryNumber) s.entries :=
  (reachable_inv h).2.2.1

theorem entry_numbers_monotonic_witness :
    List.Pairwise (fun a b => a.entryNumber < b.entryNumber) demoDraft2.entries :=
  entry_numbers_monotonic demoDraft2_reachable

/-- C8, counterexample: the seeded chart of accounts itself contains account
1590 "Accumulated Depreciation", an `asset` account whose stored normal
balance is `credit`, contradicting the side implied by its type — so the
claimed invariant fails in the very first reachable state. -/
theorem contra_account_1590 :
    (⟨1590, "Accumulated Depreciation", .asset, .credit⟩ : SeedAccount) ∈ seedAccounts ∧
    impliedNormalBalance AccountType.asset = NormalBalance.debit ∧
    (⟨1590, "Accumulated Depreciation", .asset, .credit⟩ : SeedAccount).normalBalance ≠
      impliedNormalBalance
        (⟨1590, "Accumulated Depreciation", .asset, .credit⟩ : SeedAccount).accountType :=
  ⟨by decide, rfl, by decide⟩

/-- C8, amended: the schema constrains `account_type` and `normal_balance`
only to their value enumerations; the seeded chart follows the type-implied
normal-balance side for every account except the contra-asset 1590
"Accumulated Depreciation" (asset with normal balance credit). -/
theorem seed_normal_balance_follows_type_except_1590 :
    ∀ a ∈ seedAccounts, a.number ≠ 1590 →
      a.normalBalance = impliedNormalBalance a.accountType := by decide

theorem seed_normal_balance_follows_type_except_1590_witness :
    (⟨1000, "Assets", .asset, .debit⟩ : SeedAccount).normalBalance =
      impliedNormalBalance (⟨1000, "Assets", .asset, .debit⟩ : SeedAccount).accountType :=
  seed_normal_balance_follows_type_except_1590
    ⟨1000, "Assets", .asset, .debit⟩ (by decide) (by decide)

/-- C9, counterexample: the schema's `source` CHECK accepts `'library'`,
which is not in the set the claim states, and rejects
`'external-subsystem'`, which the claim includes. -/
theorem source_set_mismatch :
    journalEntrySourceOk "library" = true ∧
    "library" ∉ claimSourceSet ∧
    journalEntrySourceOk "external-subsystem" = false :=
  ⟨by decide, by decide, by decide⟩

/-- C9, amended: the `source` values the schema accepts are exactly
`{manual, library, temple, import, system}` (`library`/`temple` being the
external-subsystem feeds), and the `status` values exactly
`{draft, posted, reversed}`. -/
theorem source_status_sets_amended :
    (∀ v, journalEntrySourceOk v = true ↔ v ∈ actualSourceSet) ∧
    (∀ v, journalEntryStatusOk v = true ↔ v ∈ claimStatusSet) := by
  constructor <;> intro v <;>
    simp [journalEntrySourceOk, journalEntryStatusOk, actualSourceSet,
      claimStatusSet, or_assoc]

/-- C10: in the `JECreate` form there are inputs — here a line with an amount
but no account selected plus a line with an account and the counter-amount —
on which the on-screen balance check passes while the submitted payload has
fewer than two lines and totals differing from the displayed ones. -/
theorem submit_filter_diverges_from_balance_check :
    formBalanced c10Lines = true ∧
    (payloadLines c10Lines).length = 1 ∧
    (payloadLines c10Lines).length < 2 ∧
    formTotalDebit (payloadLines c10Lines) ≠ formTotalDebit c10Lines := by
  refine ⟨?_, by decide, by decide, ?_⟩
  · norm_num [formBalanced, formTotalDebit, formTotalCredit, c10Lines]
  · simp [payloadLines, c10Lines, formTotalDebit]

/-- C4: when `post` succeeds on an entry, that entry was a draft, its status
becomes `posted`, its lines are applied to every account balance exactly
once, and any subsequent `post` of the same entry fails with `NotDraft`,
returning no new state (balances stay as they were). -/
theorem post_succeeds_at_most_once {n : Nat} {s s' : LedgerState}
    (h : post n s = .ok s') :
    (∃ e, s.entries.find? (fun x => x.entryNumber == n) = some e ∧
      e.status = .draft ∧
      s'.entries.find? (fun x => x.entryNumber == n) =
        some { e with status := .posted } ∧
      (∀ a, balance s' a = balance s a + entryEffect a e)) ∧
    post n s' = .error .NotDraft := by
  obtain ⟨e, hfind, hst, hop, hbal, rfl⟩ := post_ok h
  have hpe : (e.entryNumber == n) = true := by
    have h0 := List.find?_some hfind
    exact h0
  have hfind' : (updateFirst (fun x => x.entryNumber == n)
        (fun x => { x with status := .posted }) s.entries).find?
        (fun x => x.entryNumber == n) = some { e with status := .posted } :=
    find?_updateFirst _ hfind hpe
  refine ⟨⟨e, hfind, hst, hfind', ?_⟩, ?_⟩
  · intro a
    show ((updateFirst (fun x => x.entryNumber == n)
        (fun x => { x with status := .posted }) s.entries).map
          (appliedEffect a)).sum = balance s a + entryEffect a e
    rw [sum_map_updateFirst (appliedEffect a) _ hfind]
    have h1 : appliedEffect a e = 0 := by simp [appliedEffect, hst]
    have h2 : appliedEffect a { e with status := JEStatus.posted }
        = entryEffect a e := by simp [appliedEffect, entryEffect]
    rw [h1, h2]
    unfold balance
    omega
  · show post n { s with
        entries := updateFirst (fun x => x.entryNumber == n)
          (fun x => { x with status := .posted }) s.entries } = .error .NotDraft
    unfold post
    rw [show ({ s with
        entries := updateFirst (fun x => x.entryNumber == n)
          (fun x => { x with status := .posted }) s.entries } : LedgerState).entries
      = updateFirst (fun x => x.entryNumber == n)
          (fun x => { x with status := .posted }) s.entries from rfl, hfind']
    rfl

theorem post_succeeds_at_most_once_witness :
    post 1 demoPosted = .error .NotDraft :=
  (post_succeeds_at_most_once
    (show post 1 demoDraft = .ok demoPosted by decide)).2

/-- C5: posting an entry and then reversing it creates an auto-posted mirror
entry under the fresh entry number — same subsidiary, lines with debit and
credit swapped 1:1, in the freshly resolved period — marks the original
`reversed` with the back-reference set, and returns every account's balance
to its value from before the posting. -/
theorem reverse_round_trip {n rpid : Nat} {s0 s1 s2 : LedgerState}
    (hb : ∀ e ∈ s0.entries, e.entryNumber < s0.nextEntryNumber)
    (h1 : post n s0 = .ok s1) (h2 : reverseEntry n rpid s1 = .ok s2) :
    (∀ a, balance s2 a = balance s0 a) ∧
    (∃ e, s0.entries.find? (fun x => x.entryNumber == n) = some e ∧
      s2.entries.find? (fun x => x.entryNumber == s1.nextEntryNumber) =
        some ⟨s1.nextEntryNumber, e.subsidiaryId, rpid, .posted,
              e.lines.map swapLine, none⟩ ∧
      s2.entries.find? (fun x => x.entryNumber == n) =
        some { e with status := .reversed,
                      reversedByJeId := some s1.nextEntryNumber }) := by
  obtain ⟨e1, hfind1, hst1, hrev1, rfl⟩ := reverseEntry_ok h2
  obtain ⟨e, hfind, hst, hop, hbal, hs1⟩ := post_ok h1
  have hpe : (e.entryNumber == n) = true := by
    have h0 := List.find?_some hfind
    exact h0
  have hU1find : (updateFirst (fun x : JEntry => x.entryNumber == n)
        (fun x => { x with status := .posted }) s0.entries).find?
        (fun x : JEntry => x.entryNumber == n)
        = some { e with status := .posted } :=
    find?_updateFirst _ hfind hpe
  have he1 : e1 = { e with status := .posted } := by
    rw [hs1] at hfind1
    exact Option.some.inj (hfind1.symm.trans hU1find)
  subst he1
  have hb1 : ∀ x ∈ s1.entries, x.entryNumber < s0.nextEntryNumber := by
    intro x hx
    rw [hs1] at hx
    exact number_lt_of_mem_updateFirst hx (fun y => rfl) hb
  have hN : s1.nextEntryNumber = s0.nextEntryNumber := by rw [hs1]
  have hbpre : ∀ x ∈ updateFirst (fun x : JEntry => x.entryNumber == n)
      (fun x => { x with status := .reversed,
                         reversedByJeId := some s1.nextEntryNumber })
      s1.entries, x.entryNumber < s0.nextEntryNumber :=
    fun x hx => number_lt_of_mem_updateFirst hx (fun y => rfl) hb1
  have hfindpre := find?_updateFirst
    (fun x : JEntry => { x with status := .reversed,
                                reversedByJeId := some s1.nextEntryNumber })
    hfind1 hpe
  have hnone : (updateFirst (fun x : JEntry => x.entryNumber == n)
      (fun x => { x with status := .reversed,
                         reversedByJeId := some s1.nextEntryNumber })
      s1.entries).find? (fun x : JEntry => x.entryNumber == s1.nextEntryNumber)
      = none := by
    apply List.find?_eq_none.mpr
    intro x hx
    have hlt := hbpre x hx
    simp only [beq_iff_eq]
    omega
  refine ⟨?_, e, hfind, ?_, ?_⟩
  · intro a
    show ((updateFirst (fun x : JEntry => x.entryNumber == n)
        (fun x => { x with status := .reversed,
                           reversedByJeId := some s1.nextEntryNumber })
        s1.entries
        ++ [(⟨s1.nextEntryNumber, e.subsidiaryId, rpid, .posted,
             e.lines.map swapLine, none⟩ : JEntry)]).map (appliedEffect a)).sum
      = balance s0 a
    rw [List.map_append, List.sum_append,
      sum_map_updateFirst (appliedEffect a) _ hfind1]
    have hbal1 : (s1.entries.map (appliedEffect a)).sum
        = balance s0 a + entryEffect a e := by
      rw [hs1]
      show ((updateFirst (fun x : JEntry => x.entryNumber == n)
          (fun x => { x with status := .posted }) s0.entries).map
            (appliedEffect a)).sum = balance s0 a + entryEffect a e
      rw [sum_map_updateFirst (appliedEffect a) _ hfind]
      have hz : appliedEffect a e = 0 := by simp [appliedEffect, hst]
      have hp' : appliedEffect a { e with status := JEStatus.posted }
          = entryEffect a e := by simp [appliedEffect, entryEffect]
      rw [hz, hp']
      unfold balance
      omega
    have hA : appliedEffect a ({ e with status := JEStatus.posted } : JEntry)
        = entryEffect a e := by simp [appliedEffect, entryEffect]
    have hB : appliedEffect a
        ({ e with status := JEStatus.reversed,
                  reversedByJeId := some s1.nextEntryNumber } : JEntry)
        = entryEffect a e := by simp [appliedEffect, entryEffect]
    have hC : appliedEffect a
        (⟨s1.nextEntryNumber, e.subsidiaryId, rpid, .posted,
          e.lines.map swapLine, none⟩ : JEntry) = -entryEffect a e := by
      have hlines : entryEffect a
          (⟨s1.nextEntryNumber, e.subsidiaryId, rpid, .posted,
            e.lines.map swapLine, none⟩ : JEntry)
          = linesEffect a (e.lines.map swapLine) := rfl
      simp only [appliedEffect]
      rw [if_neg (by simp), hlines, linesEffect_swap]
      rfl
    simp only [List.map_cons, List.map_nil, List.sum_cons, List.sum_nil]
    rw [hbal1, hB, hC]
    have hA' : appliedEffect a ({ e with status := JEStatus.posted } : JEntry)
        = entryEffect a e := hA
    omega
  · show (updateFirst (fun x : JEntry => x.entryNumber == n)
        (fun x => { x with status := .reversed,
                           reversedByJeId := some s1.nextEntryNumber })
        s1.entries
        ++ [(⟨s1.nextEntryNumber, e.subsidiaryId, rpid, .posted,
             e.lines.map swapLine, none⟩ : JEntry)]).find?
        (fun x : JEntry => x.entryNumber == s1.nextEntryNumber)
      = some ⟨s1.nextEntryNumber, e.subsidiaryId, rpid, .posted,
              e.lines.map swapLine, none⟩
    rw [List.find?_append, hnone, Option.none_or]
    exact List.find?_cons_of_pos _ (by simp)
  · show (updateFirst (fun x : JEntry => x.entryNumber == n)
        (fun x => { x with status := .reversed,
                           reversedByJeId := some s1.nextEntryNumber })
        s1.entries
        ++ [(⟨s1.nextEntryNumber, e.subsidiaryId, rpid, .posted,
             e.lines.map swapLine, none⟩ : JEntry)]).find?
        (fun x : JEntry => x.entryNumber == n)
      = some { e with status := .reversed,
                      reversedByJeId := some s1.nextEntryNumber }
    rw [List.find?_append, hfindpre]
    rfl

theorem reverse_round_trip_witness :
    balance demoReversed 1000 = balance demoDraft 1000 :=
  (reverse_round_trip
    (show ∀ e ∈ demoDraft.entries, e.entryNumber < demoDraft.nextEntryNumber
      by decide)
    (show post 1 demoDraft = .ok demoPosted by decide)
    (show reverseEntry 1 1 demoPosted = .ok demoReversed by decide)).1 1000

/-- C6: after `close` succeeds on a period, posting a draft entry scoped to
that period fails with `PeriodClosed` — the period's state is re-checked
live at posting time, not captured at draft time — and after `reopen` the
same draft posts successfully. -/
theorem close_gates_posting {pid n : Nat} {s s1 s2 : LedgerState} {e : JEntry}
    (hc : closePeriod pid s = .ok s1)
    (he : s1.entries.find? (fun x => x.entryNumber == n) = some e)
    (hd : e.status = .draft) (hp : e.periodId = pid)
    (hbal : sumDebit e.lines = sumCredit e.lines)
    (hr : reopenPeriod pid s1 = .ok s2) :
    post n s1 = .error .PeriodClosed ∧ ∃ s3, post n s2 = .ok s3 := by
  obtain ⟨p2, hfp2, hp2c, rfl⟩ := reopenPeriod_ok hr
  obtain ⟨p, hfp, hpo, rfl⟩ := closePeriod_ok hc
  have hip : (p.id == pid) = true := by
    have h0 := List.find?_some hfp
    exact h0
  have hUc : (updateFirst (fun x : FPeriod => x.id == pid)
        (fun x => { x with status := .closed }) s.periods).find?
        (fun x : FPeriod => x.id == pid) = some { p with status := .closed } :=
    find?_updateFirst _ hfp hip
  have hopen1 : periodOpen
      { s with periods := (updateFirst (fun x : FPeriod => x.id == pid)
          (fun x => { x with status := PStatus.closed }) s.periods) } pid
      = false := by
    show ((updateFirst (fun x : FPeriod => x.id == pid)
        (fun x => { x with status := PStatus.closed }) s.periods).find?
        (fun q : FPeriod => q.id == pid)).any
        (fun q => q.status == PStatus.open_) = false
    rw [hUc]
    rfl
  have hip2 : (p2.id == pid) = true := by
    have h0 := List.find?_some hfp2
    exact h0
  have hUr := find?_updateFirst
    (fun x : FPeriod => { x with status := PStatus.open_ }) hfp2 hip2
  have hUr2 : (updateFirst (fun x : FPeriod => x.id == pid)
      (fun x => { x with status := PStatus.open_ })
      (updateFirst (fun x : FPeriod => x.id == pid)
        (fun x => { x with status := PStatus.closed }) s.periods)).find?
      (fun x : FPeriod => x.id == pid)
      = some { p2 with status := PStatus.open_ } := hUr
  have hopen2 : periodOpen
      { periods := (updateFirst (fun x : FPeriod => x.id == pid)
          (fun x => { x with status := PStatus.open_ })
          (updateFirst (fun x : FPeriod => x.id == pid)
            (fun x => { x with status := PStatus.closed }) s.periods)),
        accounts := s.accounts, entries := s.entries,
        nextEntryNumber := s.nextEntryNumber } pid = true := by
    show ((updateFirst (fun x : FPeriod => x.id == pid)
        (fun x => { x with status := PStatus.open_ })
        (updateFirst (fun x : FPeriod => x.id == pid)
          (fun x => { x with status := PStatus.closed }) s.periods)).find?
        (fun q : FPeriod => q.id == pid)).any
        (fun q => q.status == PStatus.open_) = true
    rw [hUr2]
    rfl
  constructor
  · unfold post
    simp [he, hd, hp, hopen1]
  · unfold post
    simp [he, hd, hp, hopen2, hbal]

theorem close_gates_posting_witness :
    post 1 demoClosed = .error .PeriodClosed ∧
    ∃ s3, post 1 demoReopened = .ok s3 :=
  close_gates_posting (e := ⟨1, 1, 1, .draft, demoLines, none⟩)
    (show closePeriod 1 demoDraft = .ok demoClosed by decide)
    (by decide) (by decide) (by decide) (by decide)
    (show reopenPeriod 1 demoClosed = .ok demoReopened by decide)

theorem tbRow_eq_some {es : List JEntry} {a : LAccount} {r : TBRow}
    (h : tbRow es a = some r) :
    acctActivity es a.number ≠ 0 ∧
    r = ⟨a.number, max (acctNet es a.number) 0, max (-acctNet es a.number) 0⟩ := by
  unfold tbRow at h
  split_ifs at h with h1
  exact ⟨h1, (Option.some.inj h).symm⟩

theorem acctNet_eq_zero_of_activity {es : List JEntry} {a : Nat}
    (h : acctActivity es a = 0) : acctNet es a = 0 := by
  unfold acctActivity at h
  unfold acctNet
  apply List.sum_eq_zero
  intro x hx
  rcases List.mem_map.1 hx with ⟨e, he, rfl⟩
  have hz : entryActivity a e = 0 :=
    (List.sum_eq_zero_iff.1 h) (entryActivity a e) (List.mem_map_of_mem _ he)
  show linesEffect a e.lines = 0
  unfold linesEffect
  apply List.sum_eq_zero
  intro y hy
  rcases List.mem_map.1 hy with ⟨l, hl, rfl⟩
  have hz2 : lineActivity a l = 0 :=
    (List.sum_eq_zero_iff.1 hz) _ (List.mem_map_of_mem _ hl)
  unfold lineActivity at hz2
  by_cases hacc : l.accountId = a
  · rw [if_pos hacc] at hz2
    rw [lineEffect, if_pos hacc]
    omega
  · rw [lineEffect, if_neg hacc]

theorem max_sub_max_neg (x : Int) : max x 0 - max (-x) 0 = x := by
  rcases le_total 0 x with h | h
  · rw [max_eq_left h, max_eq_right (neg_nonpos.mpr h)]
    ring
  · rw [max_eq_right h, max_eq_left (neg_nonneg.mpr h)]
    ring

theorem tb_rows_net_sum (es : List JEntry) (l : List LAccount) :
    ((l.filterMap (tbRow es)).map
      (fun r => r.debitBalance - r.creditBalance)).sum
      = (l.map (fun a => acctNet es a.number)).sum := by
  induction l with
  | nil => simp
  | cons a as ih =>
    by_cases hz : acctActivity es a.number = 0
    · rw [List.filterMap_cons_none (by simp [tbRow, hz])]
      simp only [List.map_cons, List.sum_cons, ih,
        acctNet_eq_zero_of_activity hz]
      omega
    · rw [List.filterMap_cons_some (show tbRow es a
          = some ⟨a.number, max (acctNet es a.number) 0,
                  max (-acctNet es a.number) 0⟩ from by simp [tbRow, hz])]
      simp only [List.map_cons, List.sum_cons, ih]
      have hm := max_sub_max_neg (acctNet es a.number)
      show max (acctNet es a.number) 0 - max (-acctNet es a.number) 0
          + (as.map (fun a => acctNet es a.number)).sum
        = acctNet es a.number + (as.map (fun a => acctNet es a.number)).sum
      omega

theorem sum_lineEffect_nodup {l : JLine} {nums : List Nat}
    (hnd : nums.Nodup) (hmem : l.accountId ∈ nums) :
    (nums.map (fun a => lineEffect a l)).sum
      = (l.debit : Int) - (l.credit : Int) := by
  induction nums with
  | nil => simp at hmem
  | cons a as ih =>
    rcases List.nodup_cons.1 hnd with ⟨hna, hnd'⟩
    simp only [List.map_cons, List.sum_cons]
    rcases List.mem_cons.1 hmem with h | h
    · have htail : (as.map (fun b => lineEffect b l)).sum = 0 := by
        apply List.sum_eq_zero
        intro x hx
        rcases List.mem_map.1 hx with ⟨b, hb, rfl⟩
        have hne : l.accountId ≠ b := by
          intro hh
          exact hna (by rw [h.symm.trans hh]; exact hb)
        simp [lineEffect, hne]
      rw [htail]
      simp [lineEffect, h]
    · have hne : l.accountId ≠ a := fun hh => hna (hh ▸ h)
      rw [ih hnd' h]
      simp [lineEffect, hne]

theorem sum_entryEffect_nodup {e : JEntry} {nums : List Nat}
    (hnd : nums.Nodup) (hcov : ∀ l ∈ e.lines, l.accountId ∈ nums) :
    (nums.map (fun a => entryEffect a e)).sum
      = (sumDebit e.lines : Int) - (sumCredit e.lines : Int) := by
  have hswap : (nums.map (fun a => entryEffect a e)).sum
      = (e.lines.map (fun l => (nums.map (fun a => lineEffect a l)).sum)).sum :=
    sum_map_comm (fun a l => lineEffect a l) nums e.lines
  rw [hswap]
  rw [List.map_congr_left
    (fun l hl => sum_lineEffect_nodup hnd (hcov l hl))]
  rw [sum_map_subFun (fun l : JLine => (l.debit : Int))
    (fun l : JLine => (l.credit : Int))]
  unfold sumDebit sumCredit
  push_cast
  rw [List.map_map, List.map_map]
  rfl

theorem pairwise_rows (es : List JEntry) {l : List LAccount}
    (hl : List.Pairwise byNumber l) :
    List.Pairwise (· ≤ ·)
      ((l.filterMap (tbRow es)).map TBRow.accountNumber) := by
  induction hl with
  | nil => simp
  | cons ha hpl ih =>
    rename_i a as
    by_cases hz : acctActivity es a.number = 0
    · rw [List.filterMap_cons_none (by simp [tbRow, hz])]
      exact ih
    · rw [List.filterMap_cons_some (show tbRow es a
          = some ⟨a.number, max (acctNet es a.number) 0,
                  max (-acctNet es a.number) 0⟩ from by simp [tbRow, hz])]
      simp only [List.map_cons]
      refine List.Pairwise.cons ?_ ih
      intro y hy
      rcases List.mem_map.1 hy with ⟨r, hr, rfl⟩
      rcases List.mem_filterMap.1 hr with ⟨b, hb, hrb⟩
      obtain ⟨-, rfl⟩ := tbRow_eq_some hrb
      exact ha b hb

/-- C1: for every period code and optional subsidiary filter, over any
internally consistent ledger (all persisted entries balanced, every line's
account on the chart, chart numbers unique), the trial balance's debit
column and credit column have exactly equal sums, its rows are sorted by
account number ascending, and there is a row exactly for each account with
non-zero activity-to-date. -/
theorem trialBalance_correct (s : LedgerState) (asOf : Nat) (sub : Option Nat)
    (hBal : ∀ e ∈ s.entries, sumDebit e.lines = sumCredit e.lines)
    (hCov : ∀ e ∈ s.entries, ∀ l ∈ e.lines,
      l.accountId ∈ s.accounts.map LAccount.number)
    (hNodup : (s.accounts.map LAccount.number).Nodup) :
    ((trialBalance s asOf sub).map TBRow.debitBalance).sum
      = ((trialBalance s asOf sub).map TBRow.creditBalance).sum ∧
    List.Pairwise (· ≤ ·) ((trialBalance s asOf sub).map TBRow.accountNumber) ∧
    (∀ r ∈ trialBalance s asOf sub, ∃ a ∈ s.accounts,
      r.accountNumber = a.number ∧
      acctActivity (scopedEntries s asOf sub) a.number ≠ 0) ∧
    (∀ a ∈ s.accounts, acctActivity (scopedEntries s asOf sub) a.number ≠ 0 →
      ∃ r ∈ trialBalance s asOf sub, r.accountNumber = a.number) := by
  refine ⟨?_, ?_, ?_, ?_⟩
  · have hnet : ((trialBalance s asOf sub).map
        (fun r => r.debitBalance - r.creditBalance)).sum = 0 := by
      show (((s.accounts.insertionSort byNumber).filterMap
          (tbRow (scopedEntries s asOf sub))).map
          (fun r => r.debitBalance - r.creditBalance)).sum = 0
      rw [tb_rows_net_sum]
      have hperm : ((s.accounts.insertionSort byNumber).map
            (fun a => acctNet (scopedEntries s asOf sub) a.number)).sum
          = (s.accounts.map
            (fun a => acctNet (scopedEntries s asOf sub) a.number)).sum :=
        List.Perm.sum_eq ((List.perm_insertionSort byNumber s.accounts).map _)
      rw [hperm]
      have hmm : (s.accounts.map
            (fun a => acctNet (scopedEntries s asOf sub) a.number)).sum
          = ((s.accounts.map LAccount.number).map
            (fun m => ((scopedEntries s asOf sub).map
              (fun e => entryEffect m e)).sum)).sum := by
        rw [List.map_map]
        rfl
      rw [hmm, sum_map_comm (fun m e => entryEffect m e)
        (s.accounts.map LAccount.number) (scopedEntries s asOf sub)]
      apply List.sum_eq_zero
      intro x hx
      rcases List.mem_map.1 hx with ⟨e, he, rfl⟩
      have hes : e ∈ s.entries := List.mem_of_mem_filter he
      rw [sum_entryEffect_nodup hNodup (fun l hl => hCov e hes l hl),
        hBal e hes]
      simp
    have hsplit := sum_map_subFun TBRow.debitBalance TBRow.creditBalance
      (trialBalance s asOf sub)
    omega
  · exact pairwise_rows _ (List.sorted_insertionSort byNumber s.accounts)
  · intro r hr
    rcases List.mem_filterMap.1 hr with ⟨a, ha, hra⟩
    obtain ⟨hact, rfl⟩ := tbRow_eq_some hra
    exact ⟨a, (List.mem_insertionSort byNumber).1 ha, rfl, hact⟩
  · intro a ha hact
    refine ⟨⟨a.number, max (acctNet (scopedEntries s asOf sub) a.number) 0,
             max (-acctNet (scopedEntries s asOf sub) a.number) 0⟩, ?_, rfl⟩
    exact List.mem_filterMap.2
      ⟨a, (List.mem_insertionSort byNumber).2 ha, by simp [tbRow, hact]⟩

theorem trialBalance_correct_witness :
    ((trialBalance demoPosted 202601 none).map TBRow.debitBalance).sum
      = ((trialBalance demoPosted 202601 none).map TBRow.creditBalance).sum :=
  (trialBalance_correct demoPosted 202601 none
    (by decide) (by decide) (by decide)).1
